import Mathlib

/-! Shallow embedding of videogrep's transcript-search and composition pipeline
(src/videogrep/videogrep.py).  Times are rationals; the Python dicts for
transcript lines and segments are structures, with optional dict keys as
Option fields.  Fallible code (Python IndexError / KeyError escaping a call)
is modelled with Option; the global random source is an explicit stream of
naturals threaded through the functions that consult it. -/

/-- Word-level timing record of a transcript line: word text with start and
end times. -/
structure Word where
  word : String
  start : ℚ
  «end» : ℚ
deriving DecidableEq, Repr, Inhabited

/-- Transcript line: start and end times, sentence text, and optionally the
word-level timings (the "words" key of the Python dict; none when absent). -/
structure Line where
  start : ℚ
  «end» : ℚ
  content : String
  words : Option (List Word) := none
deriving DecidableEq, Repr, Inhabited

/-- Segment record produced by search: owning file, times, text, and the
tags set only by content_aware_segments (the "content_aware" and "position"
dict keys, absent by default). -/
structure Segment where
  file : String
  start : ℚ
  «end» : ℚ
  content : String
  content_aware : Bool := false
  position : Option String := none
deriving DecidableEq, Repr, Inhabited

/-- Stable insertion of a segment into a start-sorted list: an incoming
element goes before the first strictly-later element and after elements with
an equal start, which together with `sortByStart`'s right fold models the
stability of Python's sorted. -/
def insertByStart (x : Segment) : List Segment → List Segment
  | [] => [x]
  | y :: ys => if x.start ≤ y.start then x :: y :: ys else y :: insertByStart x ys

/-- Python sorted(segments, key=lambda k: k["start"]): stable ascending sort
by the start field. -/
def sortByStart (l : List Segment) : List Segment := l.foldr insertByStart []

/-- Merge loop of remove_overlaps: cur is the running segment out[-1]; a
segment whose start is at most cur's end overwrites cur's end with its own
(out[-1]["end"] = end), otherwise cur is emitted and the segment becomes the
new running segment. -/
def removeOverlapsGo (cur : Segment) : List Segment → List Segment
  | [] => [cur]
  | s :: rest =>
    if cur.«end» ≥ s.start then removeOverlapsGo { cur with «end» := s.«end» } rest
    else cur :: removeOverlapsGo s rest

/-- videogrep.remove_overlaps: sort by start, then run the merge loop. -/
def remove_overlaps (segments : List Segment) : List Segment :=
  match sortByStart segments with
  | [] => []
  | s :: rest => removeOverlapsGo s rest

/-- Padding step of pad_and_sync's first loop: when padding is nonzero,
widen the segment by padding on both sides. -/
def padSeg (padding : ℚ) (s : Segment) : Segment :=
  if padding ≠ 0 then { s with start := s.start - padding, «end» := s.«end» + padding } else s

/-- Resync step of pad_and_sync's first loop: when resync is nonzero, shift
both times by resync. -/
def resyncSeg (resync : ℚ) (s : Segment) : Segment :=
  if resync ≠ 0 then { s with start := s.start + resync, «end» := s.«end» + resync } else s

/-- Clamp step of pad_and_sync's first loop: a negative start or end becomes 0. -/
def clampSeg (s : Segment) : Segment :=
  { s with start := if s.start < 0 then 0 else s.start,
           «end» := if s.«end» < 0 then 0 else s.«end» }

/-- One segment's pass through pad_and_sync's first loop: pad, resync, clamp. -/
def padOne (padding resync : ℚ) (s : Segment) : Segment :=
  clampSeg (resyncSeg resync (padSeg padding s))

/-- File-aware merge loop of pad_and_sync: a file change always starts a new
output segment; within a file, prev_end >= start merges by overwriting the
running segment's end with the current one's. -/
def mergeFileAware (cur : Segment) : List Segment → List Segment
  | [] => [cur]
  | s :: rest =>
    if s.file ≠ cur.file then cur :: mergeFileAware s rest
    else if cur.«end» ≥ s.start then mergeFileAware { cur with «end» := s.«end» } rest
    else cur :: mergeFileAware s rest

/-- videogrep.pad_and_sync: pad, resync and clamp every segment, then run the
file-aware overlap merge in input order. -/
def pad_and_sync (segments : List Segment) (padding : ℚ := 0) (resync : ℚ := 0) :
    List Segment :=
  match segments.map (padOne padding resync) with
  | [] => []
  | s :: rest => mergeFileAware s rest

/-- Time t lies in the range of some segment of the list. -/
def covers (segs : List Segment) (t : ℚ) : Prop :=
  ∃ s ∈ segs, s.start ≤ t ∧ t ≤ s.«end»

instance (segs : List Segment) (t : ℚ) : Decidable (covers segs t) := by
  unfold covers; infer_instance

/-- Time t lies in the range of some segment of the list owned by file f. -/
def coversFile (segs : List Segment) (f : String) (t : ℚ) : Prop :=
  ∃ s ∈ segs, s.file = f ∧ s.start ≤ t ∧ t ≤ s.«end»

instance (segs : List Segment) (f : String) (t : ℚ) : Decidable (coversFile segs f t) := by
  unfold coversFile; infer_instance

/-- Python list indexing l[i]: a negative index counts from the end of the
list; an index out of range raises IndexError, modelled as none. -/
def pyGet {α : Type} (l : List α) (i : Int) : Option α :=
  if i < 0 then
    if i + l.length < 0 then none else l.get? (i + l.length).toNat
  else l.get? i.toNat

/-- Python list.insert(i, x) for a nonnegative index: an index beyond the end
of the list appends. -/
def pyInsertNat {α : Type} (l : List α) (i : Nat) (x : α) : List α :=
  l.take i ++ x :: l.drop i

/-- Python str.lower(), character by character (the inputs of interest are
ASCII, where this agrees with Python). -/
def pyLower (s : String) : String := String.mk (s.data.map Char.toLower)

/-- Python str.strip(): drop whitespace from both ends. -/
def pyStrip (s : String) : String :=
  String.mk (((s.data.dropWhile Char.isWhitespace).reverse.dropWhile Char.isWhitespace).reverse)

/-- Grouping pass of str.split(" "): cut the character list at every single
space, keeping empty groups, as Python does for an explicit separator. -/
def splitCharsOnSpace : List Char → List (List Char)
  | [] => [[]]
  | c :: cs =>
    let r := splitCharsOnSpace cs
    if c = ' ' then [] :: r
    else
      match r with
      | [] => [[c]]
      | g :: gs => (c :: g) :: gs

/-- Python str.split(" "): note "".split(" ") is [""] and runs of spaces
produce empty items. -/
def pySplitSpace (s : String) : List String := (splitCharsOnSpace s.data).map String.mk

/-- Python " ".join(l). -/
def pyJoinSpace (l : List String) : String :=
  String.mk (List.intercalate [' '] (l.map String.data))

/-- Check any(s["start"] == transcript[i]["start"] for s in segments): with an
empty segment list the comprehension never evaluates transcript[i]; otherwise
an out-of-range transcript[i] is an IndexError (none). -/
def startCheck (segments : List Segment) (transcript : List Line) (i : Int) :
    Option Bool :=
  match segments with
  | [] => some false
  | _ :: _ =>
    match pyGet transcript i with
    | none => none
    | some line => some (segments.any fun s => decide (s.start = line.start))

/-- Context segment built by content_aware_segments from a transcript line. -/
def mkContextSeg (file : String) (l : Line) (pos : String) : Segment :=
  { file := file, start := l.start, «end» := l.«end», content := l.content,
    content_aware := true, position := some pos }

/-- First half of content_aware_segments: unless some running segment starts
at transcript[idx - 1].start, insert a segment built from transcript[idx]
(the matched line itself) at index idx - 1 (index 0 when idx = 0), tagged
"before". -/
def beforePass (segments : List Segment) (transcript : List Line) (file : String)
    (idx : Nat) : Option (List Segment) :=
  match startCheck segments transcript ((idx : Int) - 1) with
  | none => none
  | some true => some segments
  | some false =>
    match pyGet transcript (idx : Int) with
    | none => none
    | some lm =>
      some (pyInsertNat segments (if idx = 0 then 0 else idx - 1)
        (mkContextSeg file lm "before"))

/-- Second half of content_aware_segments: unless some running segment starts
at transcript[idx + 1].start, insert a segment built from transcript[idx + 1]
at index idx + 1, tagged "after". -/
def afterPass (segments : List Segment) (transcript : List Line) (file : String)
    (idx : Nat) : Option (List Segment) :=
  match startCheck segments transcript ((idx : Int) + 1) with
  | none => none
  | some true => some segments
  | some false =>
    match pyGet transcript ((idx : Int) + 1) with
    | none => none
    | some la => some (pyInsertNat segments (idx + 1) (mkContextSeg file la "after"))

/-- videogrep.content_aware_segments: the before pass, then the after pass on
its result; none models a Python IndexError escaping the call. -/
def content_aware_segments (segments : List Segment) (transcript : List Line)
    (file : String) (idx : Nat) : Option (List Segment) :=
  match beforePass segments transcript file idx with
  | none => none
  | some segs1 => afterPass segs1 transcript file idx

/-- Word stream of a transcript: concatenation of line["words"] in line
order; a line without the "words" key is a KeyError, modelled as none. -/
def collectWords : List Line → Option (List Word)
  | [] => some []
  | l :: rest =>
    match l.words with
    | none => none
    | some ws =>
      match collectWords rest with
      | none => none
      | some rest' => some (ws ++ rest')

/-- Contiguous windows of length k over the word stream, in order, as
produced by zip(*[words[i:] for i in range(k)]); k = 0 yields no windows
because zip() of no iterables is empty. -/
def windows (k : Nat) : List Word → List (List Word)
  | [] => []
  | w :: rest =>
    if k = 0 then []
    else if (w :: rest).length < k then []
    else (w :: rest).take k :: windows k rest

/-- Fragment-mode scan for one query: split it into sub-terms (stripped,
empty ones dropped), slide a window of that length over the word stream, and
emit one segment per window all of whose words match the sub-terms in order,
spanning first word start to last word end. -/
def fragmentQuery (matcher : String → String → Bool) (file : String)
    (words : List Word) (q : String) : List Segment :=
  let queries := ((pySplitSpace q).map pyStrip).filter (fun t => t ≠ "")
  (windows queries.length words).filterMap fun fragment =>
    match fragment with
    | [] => none
    | w :: ws =>
      if (queries.zip (w :: ws)).all (fun p => matcher p.1 p.2.word) then
        some { file := file, start := w.start,
               «end» := ((w :: ws).getLast (List.cons_ne_nil w ws)).«end»,
               content := pyJoinSpace ((w :: ws).map Word.word) }
      else none

/-- Fragment-mode body for one file: the scan above, query by query. -/
def fragmentSegs (matcher : String → String → Bool) (query : List String)
    (file : String) (words : List Word) : List Segment :=
  (query.map (fragmentQuery matcher file words)).flatten

/-- Outcome of processing one file inside search's loop: err is a Python
exception escaping the call, abort is mash's early return [] (with the state
of the random stream), ok carries the file's segments and that state. -/
inductive SearchStep where
  | err : SearchStep
  | abort : List Nat → SearchStep
  | ok : List Segment → List Nat → SearchStep
deriving DecidableEq, Repr

/-- Modelled external collaborator random.shuffle: a permutation of the list
driven by the next number of the pseudo-random stream (modelled as a
rotation by that number), consuming exactly one draw. -/
def pyShuffle {α : Type} (rng : List Nat) (l : List α) : List α × List Nat :=
  match rng with
  | [] => (l, [])
  | n :: rest => (l.rotate n, rest)

/-- Mash-mode inner loop over the sub-terms of one query: a term with no
case-insensitive exact word match aborts the whole search (return []);
otherwise the head of the shuffled candidate list becomes one segment. -/
def mashTerms (file : String) (words : List Word) :
    List String → List Segment → List Nat → SearchStep
  | [], segs, rng => .ok segs rng
  | q :: qs, segs, rng =>
    match words.filter (fun w => decide (pyLower w.word = pyLower q)) with
    | [] => .abort rng
    | m :: ms =>
      let pick := pyShuffle rng (m :: ms)
      mashTerms file words qs
        (segs ++ [{ file := file, start := (pick.1.headD m).start,
                    «end» := (pick.1.headD m).«end», content := (pick.1.headD m).word }])
        pick.2

/-- Mash-mode loop over the queries: each query is split on single spaces
into sub-terms handled by mashTerms. -/
def mashQueries (file : String) (words : List Word) :
    List String → List Segment → List Nat → SearchStep
  | [], segs, rng => .ok segs rng
  | q :: qs, segs, rng =>
    match mashTerms file words (pySplitSpace q) segs rng with
    | .err => .err
    | .abort r => .abort r
    | .ok segs' rng' => mashQueries file words qs segs' rng'

/-- Sentence-mode loop over one pattern list for one line: a pattern that
matches (re.search of the lowered, stripped pattern against the line text)
appends a segment for the whole line and, under context_aware, immediately
runs content_aware_segments on the running list. -/
def sentencePatterns (matcher : String → String → Bool) (ctx : Bool)
    (transcript : List Line) (file : String) (idx : Nat) (line : Line) :
    List String → List Segment → Option (List Segment)
  | [], segments => some segments
  | q :: qs, segments =>
    if matcher (pyStrip (pyLower q)) line.content then
      match
        (if ctx then
          content_aware_segments
            (segments ++ [{ file := file, start := line.start, «end» := line.«end»,
                            content := line.content }])
            transcript file idx
        else
          some (segments ++ [{ file := file, start := line.start, «end» := line.«end»,
                               content := line.content }])) with
      | none => none
      | some segments' => sentencePatterns matcher ctx transcript file idx line qs segments'
    else sentencePatterns matcher ctx transcript file idx line qs segments

/-- Sentence-mode scan over the enumerated transcript lines: for each line,
first the queries, then the patterns read from the word file. -/
def sentenceLines (matcher : String → String → Bool) (query word_content : List String)
    (ctx : Bool) (transcript : List Line) (file : String) :
    Nat → List Line → List Segment → Option (List Segment)
  | _, [], segments => some segments
  | idx, line :: rest, segments =>
    match sentencePatterns matcher ctx transcript file idx line query segments with
    | none => none
    | some segs1 =>
      match sentencePatterns matcher ctx transcript file idx line word_content segs1 with
      | none => none
      | some segs2 =>
        sentenceLines matcher query word_content ctx transcript file (idx + 1) rest segs2

/-- Per-file body of search's loop, dispatching on search_type; rng is the
state of the random source, consulted by mash mode only.  In fragment and
mash modes the word-timing test reads transcript[0] (err on an empty
transcript) and only inspects the first line's "words" key. -/
def processFile (matcher : String → String → Bool) (query word_content : List String)
    (search_type : String) (context_aware : Bool) (file : String)
    (transcript : List Line) (rng : List Nat) : SearchStep :=
  if search_type = "sentence" then
    match sentenceLines matcher query word_content context_aware transcript file 0 transcript [] with
    | none => .err
    | some segs => .ok segs rng
  else if search_type = "fragment" then
    match transcript with
    | [] => .err
    | l0 :: _ =>
      if l0.words.isNone then .ok [] rng
      else
        match collectWords transcript with
        | none => .err
        | some words => .ok (fragmentSegs matcher query file words) rng
  else if search_type = "mash" then
    match transcript with
    | [] => .err
    | l0 :: _ =>
      if l0.words.isNone then .ok [] rng
      else
        match collectWords transcript with
        | none => .err
        | some words => mashQueries file words query [] rng
  else .ok [] rng

/-- Loop of search over (file, parsed transcript) pairs: a file with no
transcript is skipped; a processed file's segments are sorted by start and
appended to the accumulator; err aborts with an exception (none) and abort
returns [] discarding the accumulator. -/
def searchGo (matcher : String → String → Bool) (query word_content : List String)
    (search_type : String) (context_aware : Bool) :
    List (String × Option (List Line)) → List Segment → List Nat →
    Option (List Segment × List Nat)
  | [], acc, rng => some (acc, rng)
  | (_, none) :: rest, acc, rng =>
    searchGo matcher query word_content search_type context_aware rest acc rng
  | (file, some transcript) :: rest, acc, rng =>
    match processFile matcher query word_content search_type context_aware file transcript rng with
    | .err => none
    | .abort r => some ([], r)
    | .ok segs rng' =>
      searchGo matcher query word_content search_type context_aware rest
        (acc ++ sortByStart segs) rng'

/-- videogrep.search over its I/O boundary: every file comes paired with the
result of parse_transcript for it; matcher models re.search; word_content
the lines of the word file; rng the random stream.  A none result models an
uncaught exception. -/
def search (files : List (String × Option (List Line))) (query : List String)
    (search_type : String) (word_content : List String) (context_aware : Bool)
    (matcher : String → String → Bool) (rng : List Nat) :
    Option (List Segment × List Nat) :=
  searchGo matcher query word_content search_type context_aware files [] rng

/-! Helper lemmas shared by the claim theorems. -/

theorem insertByStart_perm (x : Segment) (l : List Segment) :
    (insertByStart x l).Perm (x :: l) := by
  induction l with
  | nil => rfl
  | cons y ys ih =>
    rw [insertByStart]
    split
    · exact List.Perm.refl _
    · exact (List.Perm.cons y ih).trans (List.Perm.swap x y ys)

theorem sortByStart_perm (l : List Segment) : (sortByStart l).Perm l := by
  induction l with
  | nil => rfl
  | cons x xs ih => exact (insertByStart_perm x (sortByStart xs)).trans (ih.cons x)

theorem covers_of_perm {l₁ l₂ : List Segment} (h : l₁.Perm l₂) {t : ℚ}
    (hc : covers l₁ t) : covers l₂ t := by
  rcases hc with ⟨s, hs, h1, h2⟩
  exact ⟨s, h.mem_iff.1 hs, h1, h2⟩

theorem covers_cons {x : Segment} {l : List Segment} {t : ℚ} (h : covers l t) :
    covers (x :: l) t := by
  rcases h with ⟨s, hs, h1, h2⟩
  exact ⟨s, List.mem_cons_of_mem x hs, h1, h2⟩

theorem removeOverlapsGo_covers (rest : List Segment) : ∀ (cur : Segment) (t : ℚ),
    covers (removeOverlapsGo cur rest) t → covers (cur :: rest) t := by
  induction rest with
  | nil => intro cur t h; exact h
  | cons s rest ih =>
    intro cur t h
    rw [removeOverlapsGo] at h
    by_cases hc : cur.«end» ≥ s.start
    · rw [if_pos hc] at h
      rcases ih _ t h with ⟨u, hu, h1, h2⟩
      rcases List.mem_cons.1 hu with rfl | hu'
      · by_cases hcut : t ≤ cur.«end»
        · exact ⟨cur, List.mem_cons_self cur _, h1, hcut⟩
        · exact ⟨s, List.mem_cons_of_mem cur (List.mem_cons_self s rest),
            le_trans hc (le_of_lt (lt_of_not_le hcut)), h2⟩
      · exact ⟨u, List.mem_cons_of_mem cur (List.mem_cons_of_mem s hu'), h1, h2⟩
    · rw [if_neg hc] at h
      rcases h with ⟨u, hu, h1, h2⟩
      rcases List.mem_cons.1 hu with rfl | hu'
      · exact ⟨u, List.mem_cons_self u _, h1, h2⟩
      · exact covers_cons (ih s t ⟨u, hu', h1, h2⟩)

/-- Claim C1 counterexample: on the input [(0, 10), (1, 2)] the merge loop
overwrites the running end 10 with the nested segment's end 2, so time 5 is
covered by the input but not by the output of remove_overlaps: the union of
covered time ranges is not preserved. -/
theorem c1_counterexample :
    covers [⟨"a", 0, 10, "x", false, none⟩, ⟨"a", 1, 2, "y", false, none⟩] 5 ∧
    ¬ covers (remove_overlaps
        [⟨"a", 0, 10, "x", false, none⟩, ⟨"a", 1, 2, "y", false, none⟩]) 5 := by
  decide

/-- Claim C1 (amended): remove_overlaps sorts by start and merges any segment
whose start is at most the running segment's end by overwriting the running
end with that segment's end (not the max), so every time covered by the
output is covered by the input (the converse can fail). -/
theorem c1_remove_overlaps_covers_subset (segments : List Segment) (t : ℚ)
    (h : covers (remove_overlaps segments) t) : covers segments t := by
  rw [remove_overlaps] at h
  rcases hs : sortByStart segments with _ | ⟨s, rest⟩ <;> rw [hs] at h
  · rcases h with ⟨u, hu, _⟩; exact absurd hu (List.not_mem_nil u)
  · have h2 := removeOverlapsGo_covers rest s t h
    rw [← hs] at h2
    exact covers_of_perm (sortByStart_perm segments) h2

/-- Claim C1 witness: the amended theorem applied at a concrete input. -/
theorem c1_witness : covers [⟨"a", 0, 2, "x", false, none⟩] 1 :=
  c1_remove_overlaps_covers_subset [⟨"a", 0, 2, "x", false, none⟩] 1 (by decide)

theorem clampSeg_id (s : Segment) (h1 : 0 ≤ s.start) (h2 : 0 ≤ s.«end») :
    clampSeg s = s := by
  rw [clampSeg, if_neg (not_lt.2 h1), if_neg (not_lt.2 h2)]

theorem mergeFileAware_id (rest : List Segment) : ∀ cur : Segment,
    List.Chain' (fun a b => a.file = b.file → a.«end» < b.start) (cur :: rest) →
    mergeFileAware cur rest = cur :: rest := by
  induction rest with
  | nil => intro cur _; rw [mergeFileAware]
  | cons s rest ih =>
    intro cur hch
    rcases List.chain'_cons.1 hch with ⟨hcs, hrest⟩
    rw [mergeFileAware]
    by_cases hf : s.file ≠ cur.file
    · rw [if_pos hf, ih s hrest]
    · rw [if_neg hf,
        if_neg (not_le.2 (hcs ((not_not.1 hf).symm))), ih s hrest]

/-- Claim C2 counterexample: with padding = 0 and resync = 0 the file-aware
overlap merge still runs, so two overlapping same-file segments collapse to
one and the output differs from the input. -/
theorem c2_counterexample :
    pad_and_sync [⟨"a", 0, 5, "x", false, none⟩, ⟨"a", 3, 4, "y", false, none⟩] 0 0 ≠
      [⟨"a", 0, 5, "x", false, none⟩, ⟨"a", 3, 4, "y", false, none⟩] := by
  decide

/-- Claim C2 (amended): pad_and_sync with padding = 0 and resync = 0 returns
its input unchanged provided every segment has nonnegative start and end and
no segment's start is at most the previous same-file segment's end; in
general the call still clamps negative times to 0 and performs the file-aware
overlap merge, so it is not the identity. -/
theorem c2_pad_and_sync_identity (segments : List Segment)
    (hnn : ∀ s ∈ segments, 0 ≤ s.start ∧ 0 ≤ s.«end»)
    (hsep : List.Chain' (fun a b => a.file = b.file → a.«end» < b.start) segments) :
    pad_and_sync segments 0 0 = segments := by
  have hone : ∀ s ∈ segments, padOne 0 0 s = s := by
    intro s hs
    rw [padOne, padSeg, if_neg (by simp), resyncSeg, if_neg (by simp),
      clampSeg_id s (hnn s hs).1 (hnn s hs).2]
  have hmap : segments.map (padOne 0 0) = segments := by
    conv_rhs => rw [← List.map_id segments]
    exact List.map_congr_left hone
  rw [pad_and_sync, hmap]
  rcases segments with _ | ⟨s, rest⟩
  · rfl
  · exact mergeFileAware_id rest s hsep

/-- Claim C2 witness: the amended theorem applied at a concrete input. -/
theorem c2_witness :
    pad_and_sync [⟨"a", 0, 1, "x", false, none⟩, ⟨"a", 2, 3, "y", false, none⟩] 0 0 =
      [⟨"a", 0, 1, "x", false, none⟩, ⟨"a", 2, 3, "y", false, none⟩] :=
  c2_pad_and_sync_identity _ (by decide) (by simp [List.chain'_cons])

theorem clampSeg_nonneg (s : Segment) : 0 ≤ (clampSeg s).start ∧ 0 ≤ (clampSeg s).«end» := by
  constructor
  · show (0 : ℚ) ≤ if s.start < 0 then 0 else s.start
    split
    · exact le_refl 0
    · exact le_of_not_lt (by assumption)
  · show (0 : ℚ) ≤ if s.«end» < 0 then 0 else s.«end»
    split
    · exact le_refl 0
    · exact le_of_not_lt (by assumption)

theorem mergeFileAware_nonneg (rest : List Segment) : ∀ cur : Segment,
    0 ≤ cur.start → 0 ≤ cur.«end» →
    (∀ s ∈ rest, 0 ≤ s.start ∧ 0 ≤ s.«end») →
    ∀ o ∈ mergeFileAware cur rest, 0 ≤ o.start ∧ 0 ≤ o.«end» := by
  induction rest with
  | nil =>
    intro cur h1 h2 _ o ho
    rw [mergeFileAware] at ho
    rcases List.mem_cons.1 ho with rfl | ho'
    · exact ⟨h1, h2⟩
    · exact absurd ho' (List.not_mem_nil o)
  | cons s rest ih =>
    intro cur h1 h2 hall o ho
    rw [mergeFileAware] at ho
    have hs := hall s (List.mem_cons_self s rest)
    have hrest := fun u hu => hall u (List.mem_cons_of_mem s hu)
    by_cases hf : s.file ≠ cur.file
    · rw [if_pos hf] at ho
      rcases List.mem_cons.1 ho with rfl | ho'
      · exact ⟨h1, h2⟩
      · exact ih s hs.1 hs.2 hrest o ho'
    · rw [if_neg hf] at ho
      by_cases hm : cur.«end» ≥ s.start
      · rw [if_pos hm] at ho
        exact ih { cur with «end» := s.«end» } h1 hs.2 hrest o ho
      · rw [if_neg hm] at ho
        rcases List.mem_cons.1 ho with rfl | ho'
        · exact ⟨h1, h2⟩
        · exact ih s hs.1 hs.2 hrest o ho'

/-- Claim C8 (confirmed): every segment in the output of pad_and_sync has
nonnegative start and end, whatever the padding and resync values: the first
loop clamps negatives to 0 and the merge only recombines clamped values. -/
theorem c8_pad_and_sync_nonneg (segments : List Segment) (padding resync : ℚ)
    (o : Segment) (ho : o ∈ pad_and_sync segments padding resync) :
    0 ≤ o.start ∧ 0 ≤ o.«end» := by
  rw [pad_and_sync] at ho
  rcases hm : segments.map (padOne padding resync) with _ | ⟨s, rest⟩ <;> rw [hm] at ho
  · exact absurd ho (List.not_mem_nil o)
  · have hall : ∀ u ∈ s :: rest, 0 ≤ u.start ∧ 0 ≤ u.«end» := by
      rw [← hm]
      intro u hu
      rcases List.mem_map.1 hu with ⟨v, _, rfl⟩
      exact clampSeg_nonneg _
    exact mergeFileAware_nonneg rest s (hall s (List.mem_cons_self s rest)).1
      (hall s (List.mem_cons_self s rest)).2
      (fun u hu => hall u (List.mem_cons_of_mem s hu)) o ho

/-- Claim C8 witness: the theorem applied at a concrete input where padding
drives the start negative before clamping. -/
theorem c8_witness :
    0 ≤ (⟨"a", 0, 4, "x", false, none⟩ : Segment).start ∧
    0 ≤ (⟨"a", 0, 4, "x", false, none⟩ : Segment).«end» :=
  c8_pad_and_sync_nonneg [⟨"a", -5, 3, "x", false, none⟩] 1 0 _
    (by norm_num [pad_and_sync, padOne, padSeg, resyncSeg, clampSeg, mergeFileAware])

theorem coversFile_cons {x : Segment} {l : List Segment} {f : String} {t : ℚ}
    (h : coversFile l f t) : coversFile (x :: l) f t := by
  rcases h with ⟨s, hs, hf, h1, h2⟩
  exact ⟨s, List.mem_cons_of_mem x hs, hf, h1, h2⟩

theorem padSeg_file (p : ℚ) (s : Segment) : (padSeg p s).file = s.file := by
  rw [padSeg]; split <;> rfl

theorem resyncSeg_file (r : ℚ) (s : Segment) : (resyncSeg r s).file = s.file := by
  rw [resyncSeg]; split <;> rfl

theorem padOne_file (p r : ℚ) (s : Segment) : (padOne p r s).file = s.file :=
  (resyncSeg_file r (padSeg p s)).trans (padSeg_file p s)

theorem mergeFileAware_coversFile (rest : List Segment) : ∀ cur o : Segment,
    o ∈ mergeFileAware cur rest → ∀ t : ℚ, o.start ≤ t → t ≤ o.«end» →
    coversFile (cur :: rest) o.file t := by
  induction rest with
  | nil =>
    intro cur o ho t h1 h2
    rw [mergeFileAware] at ho
    rcases List.mem_cons.1 ho with rfl | ho'
    · exact ⟨o, List.mem_cons_self o _, rfl, h1, h2⟩
    · exact absurd ho' (List.not_mem_nil o)
  | cons s rest ih =>
    intro cur o ho t h1 h2
    rw [mergeFileAware] at ho
    by_cases hf : s.file ≠ cur.file
    · rw [if_pos hf] at ho
      rcases List.mem_cons.1 ho with rfl | ho'
      · exact ⟨o, List.mem_cons_self o _, rfl, h1, h2⟩
      · exact coversFile_cons (ih s o ho' t h1 h2)
    · rw [if_neg hf] at ho
      have hfeq : s.file = cur.file := not_not.1 hf
      by_cases hm : cur.«end» ≥ s.start
      · rw [if_pos hm] at ho
        rcases ih { cur with «end» := s.«end» } o ho t h1 h2 with ⟨u, hu, huf, hu1, hu2⟩
        rcases List.mem_cons.1 hu with rfl | hu'
        · by_cases hct : t ≤ cur.«end»
          · exact ⟨cur, List.mem_cons_self cur _, huf, hu1, hct⟩
          · exact ⟨s, List.mem_cons_of_mem cur (List.mem_cons_self s rest), hfeq.trans huf,
              le_trans hm (le_of_not_le hct), hu2⟩
        · exact ⟨u, List.mem_cons_of_mem cur (List.mem_cons_of_mem s hu'), huf, hu1, hu2⟩
      · rw [if_neg hm] at ho
        rcases List.mem_cons.1 ho with rfl | ho'
        · exact ⟨o, List.mem_cons_self o _, rfl, h1, h2⟩
        · exact coversFile_cons (ih s o ho' t h1 h2)

/-- Claim C6 (confirmed): every time instant covered by an output segment of
pad_and_sync is covered by some input segment of the same file (after the
pad/resync/clamp pass), so no output segment ever combines time ranges from
two different files: the merge only joins a segment into the running one when
the files agree and the running (possibly already-extended) end reaches the
segment's start, and a file change always starts a new output segment. -/
theorem c6_pad_and_sync_file_isolated (segments : List Segment) (padding resync : ℚ)
    (o : Segment) (ho : o ∈ pad_and_sync segments padding resync)
    (t : ℚ) (h1 : o.start ≤ t) (h2 : t ≤ o.«end») :
    ∃ s ∈ segments, s.file = o.file ∧
      (padOne padding resync s).start ≤ t ∧ t ≤ (padOne padding resync s).«end» := by
  rw [pad_and_sync] at ho
  rcases hm : segments.map (padOne padding resync) with _ | ⟨s, rest⟩ <;> rw [hm] at ho
  · exact absurd ho (List.not_mem_nil o)
  · have h3 := mergeFileAware_coversFile rest s o ho t h1 h2
    rw [← hm] at h3
    rcases h3 with ⟨u, hu, huf, hu1, hu2⟩
    rcases List.mem_map.1 hu with ⟨v, hv, rfl⟩
    exact ⟨v, hv, (padOne_file padding resync v).symm.trans huf, hu1, hu2⟩

/-- Claim C6 witness: the theorem applied at a concrete input with two files
whose time ranges overlap, which the merge keeps apart. -/
theorem c6_witness :
    ∃ s ∈ [(⟨"a", 0, 3, "x", false, none⟩ : Segment), ⟨"b", 1, 4, "y", false, none⟩],
      s.file = (⟨"b", 1, 4, "y", false, none⟩ : Segment).file ∧
      (padOne 0 0 s).start ≤ 2 ∧ (2 : ℚ) ≤ (padOne 0 0 s).«end» :=
  c6_pad_and_sync_file_isolated
    [⟨"a", 0, 3, "x", false, none⟩, ⟨"b", 1, 4, "y", false, none⟩] 0 0
    ⟨"b", 1, 4, "y", false, none⟩ (by decide) 2 (by decide) (by decide)

/-- Claim C3 (code bug evidence): a context expansion whose matched line is
the last transcript line is not skipped; the code evaluates transcript[idx+1],
which is out of range, and the call raises IndexError (modelled as none)
instead of completing.  Concretely: two transcript lines, hit on line 1. -/
theorem c3_last_line_index_error :
    content_aware_segments [⟨"f", 10, 12, "b", false, none⟩]
      [⟨0, 2, "a", none⟩, ⟨10, 12, "b", none⟩] "f" 1 = none := by
  decide

/-- Claim C4 counterexample: on a three-line transcript with a hit on the
middle line, the segment inserted with position "before" carries start 10,
end 12 and content "b" — the matched line's own data — not the data (0, 2,
"a") of the line immediately before it, so the claim fails as stated. -/
theorem c4_counterexample :
    content_aware_segments [⟨"f", 10, 12, "b", false, none⟩]
        [⟨0, 2, "a", none⟩, ⟨10, 12, "b", none⟩, ⟨20, 22, "c", none⟩] "f" 1 =
      some [⟨"f", 10, 12, "b", true, some "before"⟩, ⟨"f", 10, 12, "b", false, none⟩,
            ⟨"f", 20, 22, "c", true, some "after"⟩] ∧
    ¬ ((⟨"f", 10, 12, "b", true, some "before"⟩ : Segment).start = 0 ∧
       (⟨"f", 10, 12, "b", true, some "before"⟩ : Segment).«end» = 2 ∧
       (⟨"f", 10, 12, "b", true, some "before"⟩ : Segment).content = "a") := by
  decide

/-- Claim C4 (amended): on a call with both neighbors in range and both
duplicate-start guards passing, the "after" insertion's start, end and
content equal those of the line immediately after the matched line, inserted
at index idx + 1; the "before" insertion is guarded by the previous line's
start and inserted at index idx - 1, but its start, end and content equal
those of the matched line itself (transcript[idx]), not of the line before. -/
theorem c4_context_insertions (segments : List Segment) (transcript : List Line)
    (file : String) (idx : Nat) (lm la : Line)
    (hidx : 1 ≤ idx)
    (hb : startCheck segments transcript ((idx : Int) - 1) = some false)
    (hm : pyGet transcript (idx : Int) = some lm)
    (ha : startCheck (pyInsertNat segments (idx - 1) (mkContextSeg file lm "before"))
            transcript ((idx : Int) + 1) = some false)
    (hla : pyGet transcript ((idx : Int) + 1) = some la) :
    content_aware_segments segments transcript file idx =
      some (pyInsertNat (pyInsertNat segments (idx - 1) (mkContextSeg file lm "before"))
        (idx + 1) (mkContextSeg file la "after")) := by
  have h0 : idx ≠ 0 := by omega
  simp only [content_aware_segments, beforePass, afterPass, hb, hm, ha, hla, if_neg h0]

/-- Claim C4 witness: the amended theorem applied at a concrete input. -/
theorem c4_witness :
    content_aware_segments [⟨"f", 10, 12, "b", false, none⟩]
        [⟨0, 2, "a", none⟩, ⟨10, 12, "b", none⟩, ⟨20, 22, "c", none⟩] "f" 1 =
      some (pyInsertNat
        (pyInsertNat [⟨"f", 10, 12, "b", false, none⟩] 0
          (mkContextSeg "f" ⟨10, 12, "b", none⟩ "before")) 2
        (mkContextSeg "f" ⟨20, 22, "c", none⟩ "after")) :=
  c4_context_insertions [⟨"f", 10, 12, "b", false, none⟩]
    [⟨0, 2, "a", none⟩, ⟨10, 12, "b", none⟩, ⟨20, 22, "c", none⟩] "f" 1
    ⟨10, 12, "b", none⟩ ⟨20, 22, "c", none⟩
    (by decide) (by decide) (by decide) (by decide) (by decide)

/-- Claim C5 counterexample: the "before" guard checks the previous line's
start but the inserted segment carries the matched line's start, so the call
adds a segment whose start (10) equals the start of the already-present hit
segment: the claimed freshness of added starts fails as stated. -/
theorem c5_counterexample :
    content_aware_segments [⟨"f", 10, 12, "b", false, none⟩]
        [⟨0, 2, "a", none⟩, ⟨10, 12, "b", none⟩, ⟨20, 22, "c", none⟩] "f" 1 =
      some [⟨"f", 10, 12, "b", true, some "before"⟩, ⟨"f", 10, 12, "b", false, none⟩,
            ⟨"f", 20, 22, "c", true, some "after"⟩] ∧
    ¬ (∀ s ∈ [(⟨"f", 10, 12, "b", true, some "before"⟩ : Segment),
              ⟨"f", 10, 12, "b", false, none⟩, ⟨"f", 20, 22, "c", true, some "after"⟩],
        s ∉ [(⟨"f", 10, 12, "b", false, none⟩ : Segment)] →
        ∀ u ∈ [(⟨"f", 10, 12, "b", false, none⟩ : Segment)], s.start ≠ u.start) := by
  decide

/-- Claim C5 (amended): the "after" insertion never duplicates a present
start: any segment the after pass adds to the running list has a start
distinct from every start present when it is inserted.  The "before"
insertion is guarded by the previous line's start but carries the matched
line's start, so it can duplicate a present start. -/
theorem c5_after_insert_fresh (segments : List Segment) (transcript : List Line)
    (file : String) (idx : Nat) (out : List Segment)
    (h : afterPass segments transcript file idx = some out) :
    ∀ s ∈ out, s ∉ segments → ∀ u ∈ segments, s.start ≠ u.start := by
  intro s hs hnew u hu
  rcases segments with _ | ⟨a, as⟩
  · exact absurd hu (List.not_mem_nil u)
  · rw [afterPass] at h
    split at h
    · exact Option.noConfusion h
    · rename_i heq
      injection h with h
      subst h
      exact absurd hs hnew
    · rename_i heq
      split at h
      · exact Option.noConfusion h
      · rename_i la hla
        injection h with h
        subst h
        rw [startCheck, hla] at heq
        injection heq with heq
        have hall := (List.any_eq_false).1 heq
        rw [pyInsertNat] at hs
        rcases List.mem_append.1 hs with hs' | hs'
        · exact absurd (List.take_subset _ _ hs') hnew
        · rcases List.mem_cons.1 hs' with rfl | hs''
          · have hune := hall u hu
            simp only [decide_eq_true_eq] at hune
            exact fun hc => hune hc.symm
          · exact absurd (List.drop_subset _ _ hs'') hnew

/-- Claim C5 witness: the amended theorem applied at a concrete input. -/
theorem c5_witness :
    (mkContextSeg "f" ⟨20, 22, "c", none⟩ "after").start ≠
      (⟨"f", 10, 12, "b", false, none⟩ : Segment).start :=
  c5_after_insert_fresh [⟨"f", 10, 12, "b", false, none⟩]
    [⟨0, 2, "a", none⟩, ⟨10, 12, "b", none⟩, ⟨20, 22, "c", none⟩] "f" 1
    [⟨"f", 10, 12, "b", false, none⟩, mkContextSeg "f" ⟨20, 22, "c", none⟩ "after"]
    (by decide) (mkContextSeg "f" ⟨20, 22, "c", none⟩ "after") (by decide) (by decide)
    ⟨"f", 10, 12, "b", false, none⟩ (by decide)

theorem mashTerms_shape (file : String) (words : List Word) :
    ∀ (terms : List String) (segs : List Segment) (rng : List Nat),
      (∃ r, mashTerms file words terms segs rng = .abort r) ∨
      (∃ s r, mashTerms file words terms segs rng = .ok s r) := by
  intro terms
  induction terms with
  | nil => intro segs rng; exact .inr ⟨segs, rng, rfl⟩
  | cons q qs ih =>
    intro segs rng
    rcases hf : words.filter (fun w => decide (pyLower w.word = pyLower q)) with _ | ⟨m, ms⟩
    · exact .inl ⟨rng, by simp only [mashTerms, hf]⟩
    · rcases ih (segs ++ [⟨file, ((pyShuffle rng (m :: ms)).1.headD m).start,
          ((pyShuffle rng (m :: ms)).1.headD m).«end»,
          ((pyShuffle rng (m :: ms)).1.headD m).word, false, none⟩])
        (pyShuffle rng (m :: ms)).2 with ⟨r, hr⟩ | ⟨s, r, hr⟩
      · exact .inl ⟨r, by simp only [mashTerms, hf]; exact hr⟩
      · exact .inr ⟨s, r, by simp only [mashTerms, hf]; exact hr⟩

theorem mashTerms_abort (file : String) (words : List Word) :
    ∀ (terms : List String) (segs : List Segment) (rng : List Nat),
      (∃ t ∈ terms, ∀ w ∈ words, pyLower w.word ≠ pyLower t) →
      ∃ r, mashTerms file words terms segs rng = .abort r := by
  intro terms
  induction terms with
  | nil =>
    intro segs rng h
    rcases h with ⟨t, ht, _⟩
    exact absurd ht (List.not_mem_nil t)
  | cons q qs ih =>
    intro segs rng h
    rcases h with ⟨t, ht, hno⟩
    rcases hf : words.filter (fun w => decide (pyLower w.word = pyLower q)) with _ | ⟨m, ms⟩
    · exact ⟨rng, by simp only [mashTerms, hf]⟩
    · have htqs : t ∈ qs := by
        rcases List.mem_cons.1 ht with rfl | h'
        · exfalso
          have hm : m ∈ words.filter (fun w => decide (pyLower w.word = pyLower t)) :=
            hf ▸ List.mem_cons_self m ms
          have h2 := List.mem_filter.1 hm
          exact hno m h2.1 (by simpa using h2.2)
        · exact h'
      rcases ih _ _ ⟨t, htqs, hno⟩ with ⟨r, hr⟩
      exact ⟨r, by simp only [mashTerms, hf]; exact hr⟩

theorem mashQueries_abort (file : String) (words : List Word) :
    ∀ (query : List String) (segs : List Segment) (rng : List Nat),
      (∃ q ∈ query, ∃ t ∈ pySplitSpace q, ∀ w ∈ words, pyLower w.word ≠ pyLower t) →
      ∃ r, mashQueries file words query segs rng = .abort r := by
  intro query
  induction query with
  | nil =>
    intro segs rng h
    rcases h with ⟨q, hq, _⟩
    exact absurd hq (List.not_mem_nil q)
  | cons q0 qs ih =>
    intro segs rng h
    rcases h with ⟨q, hq, t, ht, hno⟩
    rcases List.mem_cons.1 hq with rfl | hq'
    · rcases mashTerms_abort file words (pySplitSpace q) segs rng ⟨t, ht, hno⟩ with ⟨r, hr⟩
      exact ⟨r, by simp only [mashQueries, hr]⟩
    · rcases mashTerms_shape file words (pySplitSpace q0) segs rng with ⟨r, hr⟩ | ⟨s, r, hr⟩
      · exact ⟨r, by simp only [mashQueries, hr]⟩
      · rcases ih s r ⟨q, hq', t, ht, hno⟩ with ⟨r2, hr2⟩
        exact ⟨r2, by simp only [mashQueries, hr]; exact hr2⟩

theorem processFile_mash_abort (matcher : String → String → Bool)
    (query word_content : List String) (ctx : Bool) (file : String)
    (l0 : Line) (ls : List Line) (words : List Word)
    (hw : l0.words.isNone = false)
    (hcw : collectWords (l0 :: ls) = some words)
    (hterm : ∃ q ∈ query, ∃ t ∈ pySplitSpace q, ∀ w ∈ words, pyLower w.word ≠ pyLower t)
    (rng : List Nat) :
    ∃ r, processFile matcher query word_content "mash" ctx file (l0 :: ls) rng = .abort r := by
  rcases mashQueries_abort file words query [] rng hterm with ⟨r, hr⟩
  exact ⟨r, by simp [processFile, hw, hcw, hr]⟩

theorem searchGo_mash_abort (matcher : String → String → Bool)
    (query word_content : List String) (ctx : Bool) (file : String)
    (transcript : List Line)
    (habort : ∀ rng0 : List Nat, ∃ r,
      processFile matcher query word_content "mash" ctx file transcript rng0 = .abort r) :
    ∀ (files : List (String × Option (List Line))) (acc : List Segment)
      (rng : List Nat) (res : List Segment) (rngF : List Nat),
      (file, some transcript) ∈ files →
      searchGo matcher query word_content "mash" ctx files acc rng = some (res, rngF) →
      res = [] := by
  intro files
  induction files with
  | nil =>
    intro acc rng res rngF hmem _
    exact absurd hmem (List.not_mem_nil _)
  | cons p rest ih =>
    intro acc rng res rngF hmem hgo
    rcases p with ⟨f, tr⟩
    rcases List.mem_cons.1 hmem with heq | hmem'
    · rw [Prod.mk.injEq] at heq
      obtain ⟨rfl, rfl⟩ := heq
      rcases habort rng with ⟨r, hr⟩
      simp only [searchGo, hr, Option.some.injEq, Prod.mk.injEq] at hgo
      exact hgo.1.symm
    · cases tr with
      | none => exact ih acc rng res rngF hmem' (by rwa [searchGo] at hgo)
      | some t =>
        rw [searchGo] at hgo
        rcases hpf : processFile matcher query word_content "mash" ctx f t rng with _ | r | ⟨s, r⟩ <;>
          simp only [hpf] at hgo
        · exact Option.noConfusion hgo
        · simp only [Option.some.injEq, Prod.mk.injEq] at hgo
          exact hgo.1.symm
        · exact ih (acc ++ sortByStart s) r res rngF hmem' hgo

/-- Claim C7 (confirmed): in mash mode, if some whitespace-separated sub-term
of some query has zero case-insensitive exact matches among the words of a
file that search actually processes (its transcript is present, nonempty,
and its first line has word timings), then whenever the call returns at all
it returns the empty segment list, discarding every segment already
gathered, from this and from earlier files. -/
theorem c7_mash_term_not_found (files : List (String × Option (List Line)))
    (query word_content : List String) (ctx : Bool)
    (matcher : String → String → Bool) (rng : List Nat)
    (file : String) (l0 : Line) (ls : List Line) (words : List Word)
    (res : List Segment) (rngF : List Nat)
    (hmem : (file, some (l0 :: ls)) ∈ files)
    (hw : l0.words.isNone = false)
    (hcw : collectWords (l0 :: ls) = some words)
    (hterm : ∃ q ∈ query, ∃ t ∈ pySplitSpace q, ∀ w ∈ words, pyLower w.word ≠ pyLower t)
    (hs : search files query "mash" word_content ctx matcher rng = some (res, rngF)) :
    res = [] :=
  searchGo_mash_abort matcher query word_content ctx file (l0 :: ls)
    (processFile_mash_abort matcher query word_content ctx file l0 ls words hw hcw hterm)
    files [] rng res rngF hmem hs

/-- Claim C7 witness: the theorem applied at a concrete input whose single
file contains "cat" but the query asks for "dog". -/
theorem c7_witness : ([] : List Segment) = [] :=
  c7_mash_term_not_found [("v", some [⟨0, 1, "cat", some [⟨"cat", 0, 1⟩]⟩])]
    ["dog"] [] false (fun _ _ => false) [] "v" ⟨0, 1, "cat", some [⟨"cat", 0, 1⟩]⟩ []
    [⟨"cat", 0, 1⟩] [] []
    (by decide) (by decide) (by decide) (by decide) (by decide)

theorem processFile_skip_no_words (matcher : String → String → Bool)
    (query word_content : List String) (st : String) (ctx : Bool) (f : String)
    (l0 : Line) (ls : List Line) (rng : List Nat)
    (hst : st = "fragment" ∨ st = "mash") (hw : l0.words = none) :
    processFile matcher query word_content st ctx f (l0 :: ls) rng = .ok [] rng := by
  rcases hst with rfl | rfl <;> simp [processFile, hw]

theorem searchGo_skip (matcher : String → String → Bool)
    (query word_content : List String) (st : String) (ctx : Bool)
    (f : String) (l0 : Line) (ls : List Line)
    (hst : st = "fragment" ∨ st = "mash") (hw : l0.words = none) :
    ∀ (pre post : List (String × Option (List Line))) (acc : List Segment) (rng : List Nat),
      searchGo matcher query word_content st ctx (pre ++ (f, some (l0 :: ls)) :: post) acc rng =
      searchGo matcher query word_content st ctx (pre ++ post) acc rng := by
  intro pre
  induction pre with
  | nil =>
    intro post acc rng
    simp only [List.nil_append, searchGo,
      processFile_skip_no_words matcher query word_content st ctx f l0 ls rng hst hw,
      sortByStart, List.foldr_nil, List.append_nil]
  | cons p pre ih =>
    intro post acc rng
    rcases p with ⟨g, tr⟩
    cases tr with
    | none =>
      simp only [List.cons_append, searchGo]
      exact ih post acc rng
    | some t =>
      simp only [List.cons_append, searchGo]
      rcases hpf : processFile matcher query word_content st ctx g t rng with _ | r | ⟨s, r⟩ <;>
        simp only [hpf]
      exact ih post (acc ++ sortByStart s) r

/-- Claim C9 counterexample: in fragment mode a file whose transcript parses
to an empty list is not skipped softly: the word-timing test reads
transcript[0], which raises IndexError (none), instead of continuing with
the remaining files. -/
theorem c9_counterexample :
    search [("a", some [])] ["x"] "fragment" [] false (fun _ _ => false) [] = none := by
  decide

/-- Claim C9 (amended): in fragment or mash mode, a file whose transcript's
first line has no word-level timing is skipped softly (with a diagnostic)
and search continues exactly as if the file were absent.  The test only
inspects the first line, so an empty transcript, or one whose first line has
word timing but a later line lacks it, instead raises an error. -/
theorem c9_first_line_no_words_skipped (matcher : String → String → Bool)
    (query word_content : List String) (st : String) (ctx : Bool)
    (f : String) (l0 : Line) (ls : List Line) (rng : List Nat)
    (hst : st = "fragment" ∨ st = "mash") (hw : l0.words = none)
    (pre post : List (String × Option (List Line))) :
    search (pre ++ (f, some (l0 :: ls)) :: post) query st word_content ctx matcher rng =
    search (pre ++ post) query st word_content ctx matcher rng :=
  searchGo_skip matcher query word_content st ctx f l0 ls hst hw pre post [] rng

/-- Claim C9 witness: the amended theorem applied at a concrete input. -/
theorem c9_witness :
    search [("v", some [⟨0, 1, "a", none⟩])] ["x"] "fragment" [] false (fun _ _ => false) [] =
    search [] ["x"] "fragment" [] false (fun _ _ => false) [] :=
  c9_first_line_no_words_skipped (fun _ _ => false) ["x"] [] "fragment" false
    "v" ⟨0, 1, "a", none⟩ [] [] (Or.inl rfl) rfl [] []

theorem processFile_no_rng (matcher : String → String → Bool)
    (query word_content : List String) (st : String) (ctx : Bool)
    (f : String) (t : List Line)
    (hst : st = "sentence" ∨ st = "fragment") :
    (∀ rng : List Nat, processFile matcher query word_content st ctx f t rng = .err) ∨
    (∃ segs, ∀ rng : List Nat,
      processFile matcher query word_content st ctx f t rng = .ok segs rng) := by
  rcases hst with rfl | rfl
  · rcases hsl : sentenceLines matcher query word_content ctx t f 0 t [] with _ | segs
    · exact .inl fun rng => by simp [processFile, hsl]
    · exact .inr ⟨segs, fun rng => by simp [processFile, hsl]⟩
  · rcases t with _ | ⟨l0, ls⟩
    · exact .inl fun rng => by simp [processFile]
    · rcases hw : l0.words with _ | ws
      · exact .inr ⟨[], fun rng => by simp [processFile, hw]⟩
      · rcases hcw : collectWords (l0 :: ls) with _ | words
        · exact .inl fun rng => by simp [processFile, hw, hcw]
        · exact .inr ⟨fragmentSegs matcher query f words, fun rng => by
            simp [processFile, hw, hcw]⟩

theorem searchGo_no_rng (matcher : String → String → Bool)
    (query word_content : List String) (st : String) (ctx : Bool)
    (hst : st = "sentence" ∨ st = "fragment") :
    ∀ (files : List (String × Option (List Line))) (acc : List Segment)
      (rng1 rng2 : List Nat),
      (searchGo matcher query word_content st ctx files acc rng1).map Prod.fst =
      (searchGo matcher query word_content st ctx files acc rng2).map Prod.fst := by
  intro files
  induction files with
  | nil => intro acc rng1 rng2; rfl
  | cons p rest ih =>
    intro acc rng1 rng2
    rcases p with ⟨f, tr⟩
    cases tr with
    | none =>
      rw [searchGo, searchGo]
      exact ih acc rng1 rng2
    | some t =>
      rcases processFile_no_rng matcher query word_content st ctx f t hst with herr | ⟨segs, hok⟩
      · rw [searchGo, searchGo, herr rng1, herr rng2]
      · rw [searchGo, searchGo, hok rng1, hok rng2]
        exact ih (acc ++ sortByStart segs) rng1 rng2

/-- Claim C10 (confirmed): in sentence mode and in fragment mode, search
never consults the random source: with the files, transcripts, queries, word
list, matcher and context_aware flag fixed, the returned segment list is the
same for any two states of the random stream (only mash mode draws from
it). -/
theorem c10_search_deterministic (files : List (String × Option (List Line)))
    (query word_content : List String) (st : String) (ctx : Bool)
    (matcher : String → String → Bool) (rng1 rng2 : List Nat)
    (hst : st = "sentence" ∨ st = "fragment") :
    (search files query st word_content ctx matcher rng1).map Prod.fst =
    (search files query st word_content ctx matcher rng2).map Prod.fst :=
  searchGo_no_rng matcher query word_content st ctx hst files [] rng1 rng2

/-- Claim C10 witness: the theorem applied at a concrete input with two
different random streams. -/
theorem c10_witness :
    (search [("v", some [⟨0, 1, "hi", none⟩])] ["h"] "sentence" [] false
        (fun q s => decide (q = s)) [5]).map Prod.fst =
    (search [("v", some [⟨0, 1, "hi", none⟩])] ["h"] "sentence" [] false
        (fun q s => decide (q = s)) [9]).map Prod.fst :=
  c10_search_deterministic [("v", some [⟨0, 1, "hi", none⟩])] ["h"] [] "sentence" false
    (fun q s => decide (q = s)) [5] [9] (Or.inl rfl)
